import Mathlib

/-!
# Verification of the `directory-to-object` directory aggregation engine

This file gives a shallow embedding, in Lean 4, of the core of the
`directory-to-object` library: the number-aware ordering utility
(`number_aware_comparison.ts`), the option-merge and set-or-merge utilities
(`merge_utilities.ts`), the fluent loader decorator (`fluent_loader.ts`),
the file-loader builders (`DefaultLoaderBuilder`) and the directory
aggregation engine (`DirectoryValueLoader` and its object/array variants).

Modelling conventions:

* Asynchronous code is modelled synchronously.  The engine awaits every
  promise before continuing, entries are probed and loaded strictly
  sequentially, so for a fixed backend state each run is a deterministic
  sequential computation.
* Thrown errors / rejected promises are modelled with `Except JsError`.
* JavaScript numbers are modelled by exact integers (`Int`).  This is
  faithful for every magnitude below `2^53`, which covers all directory
  keys of interest; the float rounding of larger numerals is not modelled.
* `String.prototype.localeCompare` is modelled as code-unit lexicographic
  comparison (the locale-independent order the specification describes).
* JavaScript objects are modelled as association lists in property
  insertion order; assignment to an existing key keeps its position,
  assignment to a fresh key appends, exactly as JS object semantics.
* JavaScript arrays are modelled as a list of optional elements (`none`
  is a hole of a sparse array) plus the non-element properties created by
  assigning to a negative index.
* In-place mutation of the listing array by the engine (it annotates the
  entry objects and sorts the array it was handed) is modelled by
  returning the final state of that array alongside the result, so the
  state observed by a caller who aliases the listing is explicit.
-/

namespace DirectoryToObject

/-- The values manipulated by the library: a model of the JavaScript values
that loaders can produce and the engine can aggregate. `urlV` stands for a
`URL` object (identified by its href), `record` for a plain-prototype
object, `arr` for an array whose `none` entries are holes. -/
inductive JSValue where
  | undefinedV
  | nullV
  | boolV (b : Bool)
  | num (n : Int)
  | str (s : String)
  | urlV (u : String)
  | bytes (bs : List Nat)
  | record (fields : List (String × JSValue))
  | arr (elems : List (Option JSValue))

/-- Fields of a plain JavaScript object, in property insertion order. -/
abbrev RecordFields := List (String × JSValue)

/-- Elements of a JavaScript array; `none` is a hole. -/
abbrev ArrayElems := List (Option JSValue)

/-- Errors thrown by the modelled code. -/
inductive JsError where
  | typeError (msg : String)
  | abortError
  | unhandledEntry (url : String)
  | internalError (msg : String)
  | ioError (msg : String)
deriving DecidableEq

/-! ## Number parsing and rendering (`number_aware_comparison.ts`) -/

/-- Decimal digit test, as used by `Number.parseInt` in radix 10. -/
def isDigitChar (c : Char) : Bool :=
  '0' ≤ c && c ≤ '9'

/-- Numeric value of a decimal digit character. -/
def digitValue (c : Char) : Nat := c.toNat - 48

/-- The decimal digit character for `d < 10`. -/
def digitToChar (d : Nat) : Char := Char.ofNat (48 + d)

/-- Value of a run of decimal digit characters, most significant first. -/
def digitsToNat (ds : List Char) : Nat :=
  ds.foldl (fun acc c => 10 * acc + digitValue c) 0

/-- Model of `Number.parseInt(value)` (radix 10): an optional sign followed
by the longest decimal-digit run; `none` models `NaN`.  The hexadecimal
auto-detection and leading-whitespace skipping of the real `parseInt` are
not modelled: both produce a value whose canonical rendering differs from
the original string, so the guarded `parseInt` below returns `NaN` for
those inputs either way. -/
def numberParseInt (value : String) : Option Int :=
  match value.data with
  | [] => none
  | c :: rest =>
    if c = '-' then
      let ds := rest.takeWhile isDigitChar
      if ds.isEmpty then none else some (-(digitsToNat ds : Int))
    else if c = '+' then
      let ds := rest.takeWhile isDigitChar
      if ds.isEmpty then none else some (digitsToNat ds : Int)
    else
      let ds := (c :: rest).takeWhile isDigitChar
      if ds.isEmpty then none else some (digitsToNat ds : Int)

/-- Decimal digits of `n`, most significant first, with enough fuel;
`natToCharsFuel fuel n` is correct whenever `n < 10 ^ fuel`. -/
def natToCharsFuel : Nat → Nat → List Char
  | 0, _ => []
  | fuel + 1, n =>
    if n < 10 then [digitToChar n]
    else natToCharsFuel fuel (n / 10) ++ [digitToChar (n % 10)]

/-- Decimal rendering of a natural number. -/
def natToString (n : Nat) : String := String.mk (natToCharsFuel (n + 1) n)

/-- Model of JavaScript `String(n)` for an integral number `n`. -/
def jsNumberToString (n : Int) : String :=
  if n < 0 then String.mk ('-' :: (natToString n.natAbs).data)
  else natToString n.natAbs

/-- Embedding of `parseInt` from `number_aware_comparison.ts`: parse with
`Number.parseInt` and keep the result only if its canonical rendering is
the whole original string (`String(maybeInt) === value`); `none` models the
`NaN` returned otherwise. -/
def parseInt (value : String) : Option Int :=
  match numberParseInt value with
  | some maybeInt => if jsNumberToString maybeInt = value then some maybeInt else none
  | none => none

/-- Three-way lexicographic comparison of character lists by code point. -/
def lexCompareChars : List Char → List Char → Int
  | [], [] => 0
  | [], _ :: _ => -1
  | _ :: _, [] => 1
  | a :: as, b :: bs =>
    if a < b then -1 else if b < a then 1 else lexCompareChars as bs

/-- Model of `a.localeCompare(b)`: the locale-independent lexicographic
comparison the library relies on, delivered as the sign the comparator
protocol requires (code-point rather than UTF-16 code-unit order; the two
agree outside surrogate-ordering corner cases). -/
def localeCompare (a b : String) : Int := lexCompareChars a.data b.data

/-- Embedding of `numberAwareComparison` from `number_aware_comparison.ts`.
The `none` key models `undefined`. -/
def numberAwareComparison : Option String → Option String → Int
  | none, none => 0
  | none, some _ => -1
  | some _, none => 1
  | some a, some b =>
    match parseInt a, parseInt b with
    | some aNum, some bNum => aNum - bNum
    | some _, none => -1
    | none, some _ => 1
    | none, none => localeCompare a b

/-! ## Options and merge utilities (`merge_utilities.ts`, `is_record.ts`) -/

/-- The recognized load options (`ValueLoaderOptions` in `interfaces.ts`).
`signal = some true` models an `AbortSignal` that is already aborted,
`fileSystemReader` identifies an overriding storage backend by id. -/
structure ValueLoaderOptions where
  signal : Option Bool := none
  fileSystemReader : Option Nat := none
  arrayMergeFunction : Option (ArrayElems → ArrayElems → ArrayElems) := none
  objectMergeFunction : Option (RecordFields → RecordFields → RecordFields) := none
  embedDirectoryUrlAs : Option String := none
  embedFileUrlAs : Option String := none
  propertyNameDecoder : Option (String → String) := none
  strict : Option Bool := none

/-- Embedding of `mergeOptions`: if either side is absent the other is used
verbatim, otherwise the options are combined attribute by attribute with
the explicit options overriding the defaults (`Object.assign` twice). -/
def mergeOptions :
    Option ValueLoaderOptions → Option ValueLoaderOptions → Option ValueLoaderOptions
  | none, options => options
  | some defaultOptions, none => some defaultOptions
  | some defaultOptions, some options =>
    some {
      signal := options.signal <|> defaultOptions.signal
      fileSystemReader := options.fileSystemReader <|> defaultOptions.fileSystemReader
      arrayMergeFunction := options.arrayMergeFunction <|> defaultOptions.arrayMergeFunction
      objectMergeFunction := options.objectMergeFunction <|> defaultOptions.objectMergeFunction
      embedDirectoryUrlAs := options.embedDirectoryUrlAs <|> defaultOptions.embedDirectoryUrlAs
      embedFileUrlAs := options.embedFileUrlAs <|> defaultOptions.embedFileUrlAs
      propertyNameDecoder := options.propertyNameDecoder <|> defaultOptions.propertyNameDecoder
      strict := options.strict <|> defaultOptions.strict }

/-- `mergedOptions?.signal?.throwIfAborted()` throws exactly when a signal
is present and already aborted. -/
def signalAborted (options : Option ValueLoaderOptions) : Bool :=
  (options.bind (·.signal)).getD false

/-- Embedding of `isRecord` (`is_record.ts`): a non-null object that is not
an array and whose prototype is `null` or `Object.prototype`; of the
modelled values only plain records qualify (`URL` and `Uint8Array`
instances have class prototypes). -/
def isRecord : JSValue → Bool
  | .record _ => true
  | _ => false

/-- `Array.isArray`. -/
def isArray : JSValue → Bool
  | .arr _ => true
  | _ => false

/-- `typeof value === "object"` (true for `null`, records, arrays and
other object instances such as `URL` and `Uint8Array`). -/
def typeofIsObject : JSValue → Bool
  | .nullV | .urlV _ | .bytes _ | .record _ | .arr _ => true
  | _ => false

/-- Property lookup on a plain object; `none` models `undefined`. -/
def recGet : RecordFields → String → Option JSValue
  | [], _ => none
  | (k, v) :: rest, key => if k = key then some v else recGet rest key

/-- Property assignment on a plain object: an existing key keeps its
position in insertion order, a fresh key is appended. -/
def recSet : RecordFields → String → JSValue → RecordFields
  | [], key, value => [(key, value)]
  | (k, v) :: rest, key, value =>
    if k = key then (k, value) :: rest else (k, v) :: recSet rest key value

/-- Embedding of `_overwrite`: the default merge behavior. -/
def overwriteMerge {T : Type} (_existingValue : T) (newValue : T) : T := newValue

/-- Embedding of `setOrMergeValue` (`merge_utilities.ts`): if the new value
is an object, and both it and the existing value at `key` are arrays, the
array merge function is applied; if both are plain records, the object
merge function is applied; in every other case the new value plainly
overwrites. -/
def setOrMergeValue (target : RecordFields) (key : String) (value : JSValue)
    (options : Option ValueLoaderOptions) : RecordFields :=
  if typeofIsObject value then
    match value, recGet target key with
    | .arr newElems, some (.arr existingElems) =>
      let merge := (options.bind (·.arrayMergeFunction)).getD overwriteMerge
      recSet target key (.arr (merge existingElems newElems))
    | .record newFields, some (.record existingFields) =>
      let merge := (options.bind (·.objectMergeFunction)).getD overwriteMerge
      recSet target key (.record (merge existingFields newFields))
    | _, _ => recSet target key value
  else
    recSet target key value

/-! ## Entries, loaders and the decision pass (`directory_loader.ts`, part_013) -/

/-- The type of a directory entry. -/
inductive EntryType where
  | file
  | directory
  | other
deriving DecidableEq

/-- A directory entry in traversal context (`DirectoryEntryInContext`). -/
structure EntryCtx where
  name : String
  type : EntryType
  url : String
  relativePath : String
deriving DecidableEq

/-- A value loader: the three-operation capability of `interfaces.ts`.
`canLoadValue` must be side-effect free; `loadValue` is modelled as a total
function of the entry and the options (for a fixed backend state the
sequential asynchronous load is deterministic). -/
structure ValueLoader where
  canLoadValue : EntryCtx → Bool
  computeKey : EntryCtx → Option String
  loadValue : EntryCtx → Option ValueLoaderOptions → JSValue

/-- A directory entry after the decision pass
(`DirectoryEntryWithLoadingDecision`): the fields the engine writes onto
the listed entry object.  `loader` stores the index of the accepting
loader in the registration list; `none` models a field left `undefined`. -/
structure DecidedEntry extends EntryCtx where
  loader : Option Nat := none
  key : Option String := none
  decodedKey : Option String := none
deriving DecidableEq

/-- Probe the loaders in registration order; the first whose `canLoadValue`
accepts the entry wins.  Returns its index and the loader. -/
def probeLoaders : List ValueLoader → Nat → EntryCtx → Option (Nat × ValueLoader)
  | [], _, _ => none
  | L :: rest, i, e =>
    if L.canLoadValue e then some (i, L) else probeLoaders rest (i + 1) e

/-- `propertyNameDecoder ?? identity`, applied to a computed key that is
not `undefined`. -/
def decodedOf (options : Option ValueLoaderOptions) : Option String → Option String
  | some key => some (((options.bind (·.propertyNameDecoder)).getD id) key)
  | none => none

/-- One step of the decision pass: set the entry's `relativePath`, probe
the loaders, record the accepting loader and its computed and decoded
keys.  An entry no loader accepts keeps all three fields `undefined`. -/
def decideEntry (loaders : List ValueLoader) (parent : EntryCtx)
    (mergedOptions : Option ValueLoaderOptions) (e : EntryCtx) : DecidedEntry :=
  let annotated := { e with relativePath := parent.relativePath ++ "/" ++ e.name }
  match probeLoaders loaders 0 annotated with
  | none => { toEntryCtx := annotated }
  | some (i, L) =>
    let key := L.computeKey annotated
    { toEntryCtx := annotated
      loader := some i
      key := key
      decodedKey := decodedOf mergedOptions key }

/-- The decision pass over the whole listing (step 1 of `loadValue`): in
strict mode the first entry no loader accepts aborts the load with an
error naming that entry. -/
def decidePass (loaders : List ValueLoader) (parent : EntryCtx)
    (mergedOptions : Option ValueLoaderOptions) :
    List EntryCtx → Except JsError (List DecidedEntry)
  | [] => .ok []
  | e :: es =>
    let d := decideEntry loaders parent mergedOptions e
    if (mergedOptions.bind (·.strict)).getD false && d.loader.isNone then
      .error (.unhandledEntry d.url)
    else
      match decidePass loaders parent mergedOptions es with
      | .ok ds => .ok (d :: ds)
      | .error err => .error err

/-- The comparator handed to `entries.sort`: `numberAwareComparison` on the
decoded keys. `entryLe a b` holds when the comparator does not require `a`
to come after `b`. -/
def entryLe (a b : DecidedEntry) : Prop :=
  numberAwareComparison a.decodedKey b.decodedKey ≤ 0

instance : DecidableRel entryLe := fun _ _ => Int.decLe _ _

/-- The sort pass (step 2 of `loadValue`).  `Array.prototype.sort` is
required to be stable (ECMAScript 2019) and with a consistent comparator
the stable sorted result is unique, so the stable `List.insertionSort`
models it exactly. -/
def sortEntries (entries : List DecidedEntry) : List DecidedEntry :=
  List.insertionSort entryLe entries

/-- Embed a source URL into a loaded value if it is a plain record
(`value[prop] = url`). -/
def embedUrl (value : JSValue) (prop : String) (url : String) : JSValue :=
  match value with
  | .record fields => .record (recSet fields prop (.urlV url))
  | v => v

/-- The load pass (step 3 of `loadValue`), generic in the variant-specific
`setValue`.  Entries whose computed key is `undefined` are skipped without
touching the cursor; for the rest the bound loader's `loadValue` runs with
the merged options, the file URL is embedded when requested, the value is
stored and the cursor advances one past the index `setValue` returned.
The two `internalError` branches model `ensureIsDefined` and an absent
loader and are unreachable for entries produced by the decision pass. -/
def loadStep {σ : Type}
    (setValue : σ → String → Int → JSValue → Option ValueLoaderOptions → σ × Int)
    (loaders : List ValueLoader) (mergedOptions : Option ValueLoaderOptions)
    (e : DecidedEntry) (result : σ) (index : Int) : Except JsError (σ × Int) :=
  match e.decodedKey with
  | none => .error (.internalError "value is undefined")
  | some decodedKey =>
    match e.loader.bind (fun i => loaders.get? i) with
    | none => .error (.internalError "missing loader")
    | some L =>
      let value := L.loadValue e.toEntryCtx mergedOptions
      let value :=
        if e.type = .file && isRecord value
            && (mergedOptions.bind (·.embedFileUrlAs)).isSome then
          embedUrl value ((mergedOptions.bind (·.embedFileUrlAs)).getD "") e.url
        else value
      .ok (setValue result decodedKey index value mergedOptions)

def loadPass {σ : Type}
    (setValue : σ → String → Int → JSValue → Option ValueLoaderOptions → σ × Int)
    (loaders : List ValueLoader) (mergedOptions : Option ValueLoaderOptions) :
    List DecidedEntry → σ → Int → Except JsError (σ × Int)
  | [], result, index => .ok (result, index)
  | e :: es, result, index =>
    if e.key.isSome then
      match loadStep setValue loaders mergedOptions e result index with
      | .error err => .error err
      | .ok (result', index') =>
        loadPass setValue loaders mergedOptions es result' (index' + 1)
    else
      loadPass setValue loaders mergedOptions es result index

/-- `DirectoryObjectValueLoader.setValue`: delegate to `setOrMergeValue`,
leave the cursor unchanged. -/
def objectSetValue (result : RecordFields) (decodedKey : String) (index : Int)
    (value : JSValue) (mergedOptions : Option ValueLoaderOptions) : RecordFields × Int :=
  (setOrMergeValue result decodedKey value mergedOptions, index)

/-- `DirectoryObjectValueLoader.embedDirectoryUrl`: note that the source
hands this step the raw call-site options, not the merged options. -/
def embedDirectoryUrlObject (result : RecordFields) (entry : EntryCtx)
    (options : Option ValueLoaderOptions) : RecordFields :=
  match options.bind (·.embedDirectoryUrlAs) with
  | some prop => recSet result prop (.urlV entry.url)
  | none => result

/-- The aggregation pipeline of `DirectoryValueLoader.loadValue`
(part_013), generic in the result container: check the entry type, merge
the options, fail fast on an aborted signal, list the directory through
the active backend (`readDir` indexed by reader id; the listing call
receives the raw call-site options, as in the source), run the decision
pass, the sort pass and the load pass, then the variant's
`embedDirectoryUrl` — which the source also hands the raw call-site
options.  Returns the result together with the final state of the listing
array, which the source mutates in place. -/
def directoryAggregate {σ : Type} (newEmptyResult : σ)
    (setValue : σ → String → Int → JSValue → Option ValueLoaderOptions → σ × Int)
    (embedDirectoryUrl : σ → EntryCtx → Option ValueLoaderOptions → σ)
    (loaders : List ValueLoader) (mergedOptions options : Option ValueLoaderOptions)
    (entry : EntryCtx) (listing : List EntryCtx) :
    Except JsError (σ × List DecidedEntry) :=
  match decidePass loaders entry mergedOptions listing with
  | .error err => .error err
  | .ok decided =>
    match loadPass setValue loaders mergedOptions (sortEntries decided) newEmptyResult 0 with
    | .error err => .error err
    | .ok (result, _) => .ok (embedDirectoryUrl result entry options, sortEntries decided)

def directoryLoadValueAux {σ : Type} (newEmptyResult : σ)
    (setValue : σ → String → Int → JSValue → Option ValueLoaderOptions → σ × Int)
    (embedDirectoryUrl : σ → EntryCtx → Option ValueLoaderOptions → σ)
    (loaders : List ValueLoader) (fileSystemReader : Nat)
    (defaultOptions : Option ValueLoaderOptions)
    (readDir : Nat → String → Option ValueLoaderOptions → Except JsError (List EntryCtx))
    (entry : EntryCtx) (options : Option ValueLoaderOptions) :
    Except JsError (σ × List DecidedEntry) :=
  if entry.type ≠ .directory then
    .error (.typeError "Directory value loader attempting to load a non-directory")
  else
    let mergedOptions := mergeOptions defaultOptions options
    if signalAborted mergedOptions then .error .abortError
    else
      let actualFileSystemReader :=
        (mergedOptions.bind (·.fileSystemReader)).getD fileSystemReader
      match readDir actualFileSystemReader entry.url options with
      | .error err => .error err
      | .ok listing =>
        directoryAggregate newEmptyResult setValue embedDirectoryUrl loaders
          mergedOptions options entry listing

/-- `DirectoryObjectValueLoader.loadValue`. -/
def directoryObjectLoadValue (loaders : List ValueLoader) (fileSystemReader : Nat)
    (defaultOptions : Option ValueLoaderOptions)
    (readDir : Nat → String → Option ValueLoaderOptions → Except JsError (List EntryCtx))
    (entry : EntryCtx) (options : Option ValueLoaderOptions) :
    Except JsError (RecordFields × List DecidedEntry) :=
  directoryLoadValueAux [] objectSetValue embedDirectoryUrlObject
    loaders fileSystemReader defaultOptions readDir entry options

/-- The state of the JavaScript array built by the array variant: the
elements (with holes) plus the non-element properties created by assigning
to a negative index. -/
structure JSArray where
  elems : ArrayElems := []
  extraProps : RecordFields := []

/-- `result[index] = value` on a JavaScript array: a non-negative index
within bounds is overwritten, one past the end extends the array with
holes in between, and a negative index creates an ordinary non-element
property named by the numeral, leaving the elements and length alone. -/
def arrayWrite (a : JSArray) (index : Int) (value : JSValue) : JSArray :=
  if index < 0 then
    { a with extraProps := recSet a.extraProps (jsNumberToString index) value }
  else
    let n := index.toNat
    if n < a.elems.length then
      { a with elems := a.elems.set n (some value) }
    else
      { a with elems := a.elems ++ List.replicate (n - a.elems.length) none ++ [some value] }

/-- `DirectoryArrayValueLoader.setValue`: `parseInt` the decoded key; the
`maybeNameAsIndex == maybeNameAsIndex` NaN test means a parseable key
replaces the running cursor, then the value is stored at the cursor and
the cursor is returned. -/
def arraySetValue (result : JSArray) (decodedKey : String) (index : Int)
    (value : JSValue) (_mergedOptions : Option ValueLoaderOptions) : JSArray × Int :=
  let index := (parseInt decodedKey).getD index
  (arrayWrite result index value, index)

/-- `DirectoryArrayValueLoader.embedDirectoryUrl` is a no-op. -/
def embedDirectoryUrlArray (result : JSArray) (_entry : EntryCtx)
    (_options : Option ValueLoaderOptions) : JSArray := result

/-- `DirectoryArrayValueLoader.loadValue`. -/
def directoryArrayLoadValue (loaders : List ValueLoader) (fileSystemReader : Nat)
    (defaultOptions : Option ValueLoaderOptions)
    (readDir : Nat → String → Option ValueLoaderOptions → Except JsError (List EntryCtx))
    (entry : EntryCtx) (options : Option ValueLoaderOptions) :
    Except JsError (JSArray × List DecidedEntry) :=
  directoryLoadValueAux {} arraySetValue embedDirectoryUrlArray
    loaders fileSystemReader defaultOptions readDir entry options

/-! ## The fluent decorator layer (`fluent_loader.ts`) -/

/-- The overrides a `FluentLoaderImpl` layers over its inner loader. -/
structure FluentOverrides where
  name : Option String := none
  canLoadValue : Option (EntryCtx → Bool) := none
  computeKey : Option (String → Option String) := none

/-- `FluentLoaderImpl`: an immutable wrapper holding an inner loader and
one set of overrides. -/
structure FluentLoaderImpl where
  innerLoader : ValueLoader
  overrides : FluentOverrides

namespace FluentLoaderImpl

/-- `FluentLoaderImpl.canLoadValue`: the override predicate, when present,
is combined with the inner loader's answer by logical AND (the sync and
async paths of the source compute the same conjunction). -/
def canLoadValue (L : FluentLoaderImpl) (e : EntryCtx) : Bool :=
  match L.overrides.canLoadValue with
  | none => L.innerLoader.canLoadValue e
  | some p => L.innerLoader.canLoadValue e && p e

/-- `FluentLoaderImpl.computeKey`: the override transform is applied to the
inner loader's key only when that key is defined. -/
def computeKey (L : FluentLoaderImpl) (e : EntryCtx) : Option String :=
  let innerComputed := L.innerLoader.computeKey e
  match L.overrides.computeKey, innerComputed with
  | some f, some k => f k
  | _, _ => innerComputed

/-- `name.endsWith(extension)`, modelled on the character lists so that it
evaluates by kernel reduction. -/
def strEndsWith (s post : String) : Bool :=
  s.data.drop (s.data.length - post.data.length) == post.data

/-- Strip `extension.length` characters from the end of `name`
(`name.substring(0, name.length - extension.length)`). -/
def stripExtension (name extension : String) : String :=
  String.mk (name.data.take (name.data.length - extension.data.length))

/-- `FluentLoaderImpl.when`: note that the source builds the new wrapper
around `this.#innerLoader` with a fresh overrides record, so any overrides
already carried by `this` are not part of the new loader. -/
def when (L : FluentLoaderImpl) (canLoadValue : EntryCtx → Bool) : FluentLoaderImpl :=
  ⟨L.innerLoader, { canLoadValue := some canLoadValue }⟩

/-- `FluentLoaderImpl.whenExtensionIs`: like `when`, wraps the inner
loader with a fresh extension predicate and key-stripping transform. -/
def whenExtensionIs (L : FluentLoaderImpl) (extension : String) : FluentLoaderImpl :=
  ⟨L.innerLoader,
    { canLoadValue := some (fun e => strEndsWith e.name extension)
      computeKey := some (fun name => some (stripExtension name extension)) }⟩

/-- `FluentLoaderImpl.whenExtensionIsOneOf`.  The source's `computeKey`
calls `ensureIsDefined` on the matching extension; the unreachable throw
(no extension matches although `canLoadValue` accepted) is modelled by
`none`. -/
def whenExtensionIsOneOf (L : FluentLoaderImpl) (extensions : List String) :
    FluentLoaderImpl :=
  ⟨L.innerLoader,
    { canLoadValue := some (fun e => extensions.any (fun ext => strEndsWith e.name ext))
      computeKey := some (fun name =>
        match extensions.find? (fun ext => strEndsWith name ext) with
        | some ext => some (stripExtension name ext)
        | none => none) }⟩

/-- `FluentLoaderImpl.whenPathMatches`; the compiled picomatch pattern is
abstracted as the predicate `matcher`. -/
def whenPathMatches (L : FluentLoaderImpl) (matcher : String → Bool) : FluentLoaderImpl :=
  ⟨L.innerLoader, { canLoadValue := some (fun e => matcher e.relativePath) }⟩

/-- `FluentLoaderImpl.whenPathMatchesEvery`. -/
def whenPathMatchesEvery (L : FluentLoaderImpl) (matchers : List (String → Bool)) :
    FluentLoaderImpl :=
  ⟨L.innerLoader,
    { canLoadValue := some (fun e => matchers.all (fun m => m e.relativePath)) }⟩

/-- `FluentLoaderImpl.whenPathMatchesSome`. -/
def whenPathMatchesSome (L : FluentLoaderImpl) (matchers : List (String → Bool)) :
    FluentLoaderImpl :=
  ⟨L.innerLoader,
    { canLoadValue := some (fun e => matchers.any (fun m => m e.relativePath)) }⟩

/-- `makeFluent` of a plain loader: a wrapper with no overrides. -/
def ofLoader (inner : ValueLoader) : FluentLoaderImpl := ⟨inner, {}⟩

end FluentLoaderImpl

/-! ## File loader builders -/

/-- `DefaultLoaderBuilder.textFile().loadValue` (part_015): delegate
directly to the file reader, passing the options (and hence the
cancellation token) along without checking it. -/
def fluentTextFileLoadValue
    (readTextFromFile : String → Option ValueLoaderOptions → Except JsError String)
    (entry : EntryCtx) (options : Option ValueLoaderOptions) : Except JsError JSValue :=
  (readTextFromFile entry.url options).map .str

/-- `DefaultLoaderBuilder.binaryFile().loadValue` (part_015). -/
def fluentBinaryFileLoadValue
    (readBinaryFromFile : String → Option ValueLoaderOptions → Except JsError (List Nat))
    (entry : EntryCtx) (options : Option ValueLoaderOptions) : Except JsError JSValue :=
  (readBinaryFromFile entry.url options).map .bytes

/-- `DefaultLoaderBuilder.customFile({parser}).loadValue` (part_015): read
the text through the reader, then apply the parser. -/
def fluentCustomFileLoadValue
    (readTextFromFile : String → Option ValueLoaderOptions → Except JsError String)
    (parser : String → JSValue)
    (entry : EntryCtx) (options : Option ValueLoaderOptions) : Except JsError JSValue :=
  (readTextFromFile entry.url options).map parser

/-- `newTextFileValueLoader` of the legacy factories (`factories.ts`):
`options?.signal?.throwIfAborted()` before delegating to the reader. -/
def legacyTextFileLoadValue
    (loadTextFromFile : String → Option ValueLoaderOptions → Except JsError String)
    (path : String) (options : Option ValueLoaderOptions) : Except JsError JSValue :=
  if signalAborted options then .error .abortError
  else (loadTextFromFile path options).map .str

/-- `newStringParserFileValueLoader` of the legacy factories
(`factories.ts`): check the token, read, parse. -/
def legacyStringParserLoadValue
    (loadTextFromFile : String → Option ValueLoaderOptions → Except JsError String)
    (parser : String → JSValue)
    (path : String) (options : Option ValueLoaderOptions) : Except JsError JSValue :=
  if signalAborted options then .error .abortError
  else (loadTextFromFile path options).map parser

/-! ## The companion (inner) file system reader

The current interface version returns a `DirectoryContents` value from
`readDirectoryContents` that can carry a companion `innerFileSystemReader`
(declared by the `MockFileSystemReader` used in the tests, and exercised by
the test "Directory loader uses inner file system reader").  The snapshot
of `DirectoryValueLoader.loadValue` under `src` (part_013) predates that
feature and ignores the field, so the consuming code is modelled from the
specification here. -/

/-- The richer listing result: the entries plus an optional companion
reader for nested reads. -/
structure DirectoryContents where
  entries : List EntryCtx
  innerFileSystemReader : Option Nat := none

/-- Modelled from the spec: the directory aggregation `loadValue` of the
version whose `readDirectoryContents` yields a `DirectoryContents`.  Per
§4.3 step 3, when the listing carries a companion *effective* storage
backend it "becomes the backend used for this subtree", taking the place
of the engine's configured reader and of any call-site override: the
engine passes the merged options, with `fileSystemReader` replaced by the
effective reader, to every nested load.  Returns the result and the final
listing state, as the source version does. -/
def directoryObjectLoadValueWithCompanion (loaders : List ValueLoader)
    (fileSystemReader : Nat) (defaultOptions : Option ValueLoaderOptions)
    (readDir : Nat → String → Option ValueLoaderOptions → Except JsError DirectoryContents)
    (entry : EntryCtx) (options : Option ValueLoaderOptions) :
    Except JsError (RecordFields × List DecidedEntry) :=
  if entry.type ≠ .directory then
    .error (.typeError "Directory value loader attempting to load a non-directory")
  else
    let mergedOptions := mergeOptions defaultOptions options
    if signalAborted mergedOptions then .error .abortError
    else
      let actualFileSystemReader :=
        (mergedOptions.bind (·.fileSystemReader)).getD fileSystemReader
      match readDir actualFileSystemReader entry.url options with
      | .error err => .error err
      | .ok contents =>
        let effectiveReader := contents.innerFileSystemReader.getD actualFileSystemReader
        let nestedOptions : Option ValueLoaderOptions :=
          some { mergedOptions.getD {} with fileSystemReader := some effectiveReader }
        directoryAggregate [] objectSetValue embedDirectoryUrlObject loaders
          nestedOptions options entry contents.entries

/-- Modelled from the spec: the options that the companion-aware engine
hands to every nested loader invocation for the subtree it is loading. -/
def nestedOptionsFor (fileSystemReader : Nat)
    (defaultOptions options : Option ValueLoaderOptions)
    (contents : DirectoryContents) : Option ValueLoaderOptions :=
  let mergedOptions := mergeOptions defaultOptions options
  let actualFileSystemReader :=
    (mergedOptions.bind (·.fileSystemReader)).getD fileSystemReader
  some { mergedOptions.getD {} with
    fileSystemReader := some (contents.innerFileSystemReader.getD actualFileSystemReader) }

/-- Modelled from the spec: a nested file loader resolves the backend it
reads through as the options override, falling back to the reader it was
built with. -/
def nestedReaderUsed (builderReader : Nat) (options : Option ValueLoaderOptions) : Nat :=
  (options.bind (·.fileSystemReader)).getD builderReader

/-! ## Concrete fixtures

Small concrete loaders, entries and listings used to evaluate the
engine on closed inputs. -/

/-- A text-file-like loader: accepts files, keys by name, loads the
relative path as a string (a stand-in for deterministic file contents). -/
def sampleFileLoader : ValueLoader where
  canLoadValue := fun e => e.type = .file
  computeKey := fun e => some e.name
  loadValue := fun e _ => .str e.relativePath

/-- A loader computing the same key `"a"` for every file (two files with
different extensions but equal base name behave this way). The loaded
value records which entry was loaded. -/
def sampleConstKeyLoader : ValueLoader where
  canLoadValue := fun e => e.type = .file
  computeKey := fun _ => some "a"
  loadValue := fun e _ => .str e.name

/-- A loader whose loaded value reports the file system reader id found in
the options it receives (`-1` when absent): a probe for which backend a
nested load was told to use. -/
def readerProbeLoader : ValueLoader where
  canLoadValue := fun e => e.type = .file
  computeKey := fun e => some e.name
  loadValue := fun _ options =>
    .num (((options.bind (·.fileSystemReader)).map Int.ofNat).getD (-1))

/-- The probe that models the directory loader's own `canLoadValue` at the
end of the cloned registration list: accepts only directories. -/
def directoryProbeLoader : ValueLoader where
  canLoadValue := fun e => e.type = .directory
  computeKey := fun e => some e.name
  loadValue := fun _ _ => .record []

/-- A root directory entry. -/
def sampleDir : EntryCtx := ⟨"", .directory, "file:///d", ""⟩

/-- File entry named "a". -/
def sampleA : EntryCtx := ⟨"a", .file, "file:///d/a", ""⟩

/-- File entry named "b". -/
def sampleB : EntryCtx := ⟨"b", .file, "file:///d/b", ""⟩

/-- An entry of type `other` (e.g. a symlink reported conservatively). -/
def sampleOther : EntryCtx := ⟨"x", .other, "file:///d/x", ""⟩

/-- File entries with numeric names, for the sparse-array example. -/
def sampleN0 : EntryCtx := ⟨"0", .file, "file:///d/0", ""⟩

def sampleN42 : EntryCtx := ⟨"42", .file, "file:///d/42", ""⟩

def sampleN99 : EntryCtx := ⟨"99", .file, "file:///d/99", ""⟩

/-- A file entry whose name parses as the negative integer `-1`. -/
def sampleNeg : EntryCtx := ⟨"-1", .file, "file:///d/-1", ""⟩

/-- A base loader accepting every entry (like `Loaders.textFile()` built
with the empty extension). -/
def sampleAnyLoader : ValueLoader where
  canLoadValue := fun _ => true
  computeKey := fun e => some e.name
  loadValue := fun _ _ => .undefinedV

/-- A `.json` file entry, named `foo.json`. -/
def sampleJson : EntryCtx := ⟨"foo.json", .file, "file:///d/foo.json", "/foo.json"⟩

/-! # Theorems

First the arithmetic of decimal numerals, then the order theory of the
comparator, then generic list lemmas, then the claims. -/

theorem digitToChar_spec (d : Nat) (hd : d < 10) :
    isDigitChar (digitToChar d) = true ∧ digitValue (digitToChar d) = d := by
  interval_cases d <;> exact ⟨by decide, by decide⟩

theorem digitsToNat_append (l : List Char) (c : Char) :
    digitsToNat (l ++ [c]) = 10 * digitsToNat l + digitValue c := by
  unfold digitsToNat
  rw [List.foldl_append]
  rfl

theorem natToCharsFuel_spec :
    ∀ fuel n : Nat, n < 10 ^ fuel →
      (∀ c ∈ natToCharsFuel fuel n, isDigitChar c = true) ∧
        digitsToNat (natToCharsFuel fuel n) = n := by
  intro fuel
  induction fuel with
  | zero =>
    intro n hn
    have hn0 : n = 0 := by simpa using hn
    subst hn0
    exact ⟨by simp [natToCharsFuel], by simp [natToCharsFuel, digitsToNat]⟩
  | succ fuel ih =>
    intro n hn
    by_cases h10 : n < 10
    · refine ⟨?_, ?_⟩
      · intro c hc
        simp only [natToCharsFuel, if_pos h10, List.mem_singleton] at hc
        subst hc
        exact (digitToChar_spec n h10).1
      · simp only [natToCharsFuel, if_pos h10, digitsToNat, List.foldl]
        have := (digitToChar_spec n h10).2
        omega
    · have hpow : 10 ^ (fuel + 1) = 10 ^ fuel * 10 := pow_succ 10 fuel
      have hdiv : n / 10 < 10 ^ fuel := by omega
      obtain ⟨ihd, ihv⟩ := ih (n / 10) hdiv
      refine ⟨?_, ?_⟩
      · intro c hc
        simp only [natToCharsFuel, if_neg h10, List.mem_append, List.mem_singleton] at hc
        rcases hc with hc | hc
        · exact ihd c hc
        · subst hc
          exact (digitToChar_spec (n % 10) (by omega)).1
      · simp only [natToCharsFuel, if_neg h10]
        rw [digitsToNat_append, ihv]
        have := (digitToChar_spec (n % 10) (by omega)).2
        omega

theorem natToCharsFuel_ne_nil (fuel n : Nat) : natToCharsFuel (fuel + 1) n ≠ [] := by
  unfold natToCharsFuel
  split <;> simp

theorem lt_ten_pow_succ (n : Nat) : n < 10 ^ (n + 1) := by
  have h1 : n < 2 ^ n := Nat.lt_two_pow n
  have h2 : 2 ^ n ≤ 10 ^ n := Nat.pow_le_pow_left (by norm_num) n
  have h3 : (10 : Nat) ^ n ≤ 10 ^ (n + 1) :=
    Nat.pow_le_pow_right (by norm_num) (Nat.le_succ n)
  omega

theorem natToString_spec (n : Nat) :
    (∀ c ∈ (natToString n).data, isDigitChar c = true) ∧
      digitsToNat (natToString n).data = n ∧ (natToString n).data ≠ [] := by
  obtain ⟨hd, hv⟩ := natToCharsFuel_spec (n + 1) n (lt_ten_pow_succ n)
  refine ⟨?_, ?_, ?_⟩
  · simpa [natToString] using hd
  · simpa [natToString] using hv
  · simpa [natToString] using natToCharsFuel_ne_nil n n

theorem takeWhile_of_all {p : Char → Bool} :
    ∀ {l : List Char}, (∀ c ∈ l, p c = true) → l.takeWhile p = l := by
  intro l
  induction l with
  | nil => intro; rfl
  | cons c cs ih =>
    intro h
    rw [List.takeWhile_cons, if_pos (h c (by simp))]
    rw [ih fun x hx => h x (by simp [hx])]

theorem numberParseInt_jsNumberToString (n : Int) :
    numberParseInt (jsNumberToString n) = some n := by
  obtain ⟨hdig, hval, hne⟩ := natToString_spec n.natAbs
  by_cases hneg : n < 0
  · have hdata : (jsNumberToString n).data = '-' :: (natToString n.natAbs).data := by
      simp [jsNumberToString, if_pos hneg]
    have hfalse : (natToString n.natAbs).data.isEmpty = false := by
      cases h : (natToString n.natAbs).data
      · exact absurd h hne
      · rfl
    unfold numberParseInt
    rw [hdata]
    simp only [if_pos rfl]
    rw [takeWhile_of_all hdig]
    simp only [if_true, hfalse, Bool.false_eq_true, if_false, hval]
    congr 1
    omega
  · have habs : jsNumberToString n = natToString n.natAbs := by
      simp [jsNumberToString, hneg]
    obtain ⟨c, cs, hcons⟩ := List.exists_cons_of_ne_nil hne
    have hc : isDigitChar c = true := hdig c (by rw [hcons]; simp)
    have hcm : c ≠ '-' := by
      intro h
      rw [h] at hc
      exact absurd hc (by decide)
    have hcp : c ≠ '+' := by
      intro h
      rw [h] at hc
      exact absurd hc (by decide)
    have hfalse : (natToString n.natAbs).data.isEmpty = false := by
      cases h : (natToString n.natAbs).data
      · exact absurd h hne
      · rfl
    unfold numberParseInt
    rw [habs, hcons]
    simp only [if_neg hcm, if_neg hcp]
    rw [← hcons, takeWhile_of_all hdig]
    simp only [hfalse, Bool.false_eq_true, if_false, hval]
    congr 1
    omega

theorem parseInt_jsNumberToString (n : Int) : parseInt (jsNumberToString n) = some n := by
  unfold parseInt
  rw [numberParseInt_jsNumberToString]
  simp

theorem parseInt_canonical {s : String} {x : Int} (h : parseInt s = some x) :
    jsNumberToString x = s := by
  unfold parseInt at h
  split at h
  · split at h
    · cases h
      assumption
    · exact absurd h (by simp)
  · exact absurd h (by simp)

theorem parseInt_isSome_iff (s : String) :
    (parseInt s).isSome = true ↔ ∃ n : Int, jsNumberToString n = s := by
  constructor
  · intro h
    obtain ⟨x, hx⟩ := Option.isSome_iff_exists.mp h
    exact ⟨x, parseInt_canonical hx⟩
  · rintro ⟨n, hn⟩
    rw [← hn, parseInt_jsNumberToString]
    rfl

theorem lexCompareChars_total :
    ∀ as bs : List Char, lexCompareChars as bs ≤ 0 ∨ lexCompareChars bs as ≤ 0 := by
  intro as
  induction as with
  | nil =>
    intro bs
    left
    cases bs <;> simp [lexCompareChars]
  | cons a as ih =>
    intro bs
    cases bs with
    | nil =>
      right
      simp [lexCompareChars]
    | cons b bs =>
      rcases lt_trichotomy a b with h | h | h
      · left
        simp [lexCompareChars, h]
      · subst h
        simp only [lexCompareChars, lt_irrefl, if_false]
        exact ih bs
      · right
        simp [lexCompareChars, h]

theorem lexCompareChars_trans :
    ∀ as bs cs : List Char, lexCompareChars as bs ≤ 0 → lexCompareChars bs cs ≤ 0 →
      lexCompareChars as cs ≤ 0 := by
  intro as
  induction as with
  | nil =>
    intro bs cs _ _
    cases cs <;> simp [lexCompareChars]
  | cons a as ih =>
    intro bs cs hab hbc
    cases bs with
    | nil => simp [lexCompareChars] at hab
    | cons b bs =>
      cases cs with
      | nil => simp [lexCompareChars] at hbc
      | cons c cs =>
        rcases lt_trichotomy a b with h1 | h1 | h1
        · rcases lt_trichotomy b c with h2 | h2 | h2
          · simp [lexCompareChars, lt_trans h1 h2]
          · subst h2
            simp [lexCompareChars, h1]
          · rw [lexCompareChars, if_neg (lt_asymm h2), if_pos h2] at hbc
            exact absurd hbc (by norm_num)
        · subst h1
          rw [lexCompareChars, if_neg (lt_irrefl a), if_neg (lt_irrefl a)] at hab
          rcases lt_trichotomy a c with h2 | h2 | h2
          · simp [lexCompareChars, h2]
          · subst h2
            rw [lexCompareChars, if_neg (lt_irrefl a), if_neg (lt_irrefl a)] at hbc
            rw [lexCompareChars, if_neg (lt_irrefl a), if_neg (lt_irrefl a)]
            exact ih bs cs hab hbc
          · rw [lexCompareChars, if_neg (lt_asymm h2), if_pos h2] at hbc
            exact absurd hbc (by norm_num)
        · rw [lexCompareChars, if_neg (lt_asymm h1), if_pos h1] at hab
          exact absurd hab (by norm_num)

theorem lexCompareChars_antisymm :
    ∀ as bs : List Char, lexCompareChars as bs ≤ 0 → lexCompareChars bs as ≤ 0 →
      as = bs := by
  intro as
  induction as with
  | nil =>
    intro bs _ hba
    cases bs with
    | nil => rfl
    | cons b bs => simp [lexCompareChars] at hba
  | cons a as ih =>
    intro bs hab hba
    cases bs with
    | nil => simp [lexCompareChars] at hab
    | cons b bs =>
      rcases lt_trichotomy a b with h | h | h
      · rw [lexCompareChars, if_neg (lt_asymm h), if_pos h] at hba
        exact absurd hba (by norm_num)
      · subst h
        rw [lexCompareChars, if_neg (lt_irrefl a), if_neg (lt_irrefl a)] at hab
        rw [lexCompareChars, if_neg (lt_irrefl a), if_neg (lt_irrefl a)] at hba
        rw [ih bs hab hba]
      · rw [lexCompareChars, if_neg (lt_asymm h), if_pos h] at hab
        exact absurd hab (by norm_num)

theorem numberAwareComparison_total (a b : Option String) :
    numberAwareComparison a b ≤ 0 ∨ numberAwareComparison b a ≤ 0 := by
  cases a with
  | none =>
    left
    cases b <;> simp [numberAwareComparison]
  | some av =>
    cases b with
    | none =>
      right
      simp [numberAwareComparison]
    | some bv =>
      cases h1 : parseInt av <;> cases h2 : parseInt bv <;>
          simp only [numberAwareComparison, h1, h2] <;>
        try omega
      exact lexCompareChars_total av.data bv.data

theorem numberAwareComparison_trans {a b c : Option String}
    (hab : numberAwareComparison a b ≤ 0) (hbc : numberAwareComparison b c ≤ 0) :
    numberAwareComparison a c ≤ 0 := by
  cases a with
  | none => cases c <;> simp [numberAwareComparison]
  | some av =>
    cases b with
    | none => simp [numberAwareComparison] at hab
    | some bv =>
      cases c with
      | none => simp [numberAwareComparison] at hbc
      | some cv =>
        cases h1 : parseInt av <;> cases h2 : parseInt bv <;> cases h3 : parseInt cv <;>
            simp only [numberAwareComparison, h1, h2, h3] at hab hbc ⊢ <;>
          try omega
        exact lexCompareChars_trans av.data bv.data cv.data hab hbc

theorem numberAwareComparison_antisymm {a b : String}
    (hab : numberAwareComparison (some a) (some b) ≤ 0)
    (hba : numberAwareComparison (some b) (some a) ≤ 0) : a = b := by
  cases h1 : parseInt a <;> cases h2 : parseInt b <;>
    simp only [numberAwareComparison, h1, h2] at hab hba
  · have hd := lexCompareChars_antisymm a.data b.data hab hba
    cases a
    cases b
    exact congrArg String.mk hd
  · exact absurd hab (by norm_num)
  · exact absurd hba (by norm_num)
  · rename_i x y
    have hxy : x = y := by omega
    rw [← parseInt_canonical h1, ← parseInt_canonical h2, hxy]

/-- Two sorted lists that are permutations of each other are equal, as
long as the order relation is antisymmetric on the elements actually
present.  (Mathlib's `eq_of_perm_of_sorted` needs global antisymmetry,
which the comparator relation does not have: distinct entries can carry
tying keys.) -/
theorem pairwise_perm_eq {α : Type} {r : α → α → Prop} :
    ∀ {l₁ l₂ : List α}, l₁.Perm l₂ → l₁.Pairwise r → l₂.Pairwise r →
      (∀ a ∈ l₁, ∀ b ∈ l₁, r a b → r b a → a = b) → l₁ = l₂ := by
  intro l₁
  induction l₁ with
  | nil =>
    intro l₂ hp _ _ _
    exact (hp.symm.eq_nil).symm
  | cons a t ih =>
    intro l₂ hp h₁ h₂ hanti
    cases l₂ with
    | nil => exact absurd hp.eq_nil (by simp)
    | cons b t₂ =>
      by_cases hab : a = b
      · subst hab
        have ht : t.Perm t₂ := hp.cons_inv
        have hrest :
            t = t₂ :=
          ih ht (List.Pairwise.of_cons h₁) (List.Pairwise.of_cons h₂)
            (fun x hx y hy => hanti x (List.mem_cons_of_mem _ hx) y (List.mem_cons_of_mem _ hy))
        rw [hrest]
      · have hbmem : b ∈ a :: t := hp.symm.subset (List.mem_cons_self b t₂)
        have hamem : a ∈ b :: t₂ := hp.subset (List.mem_cons_self a t)
        have hbt : b ∈ t := by
          rcases List.mem_cons.mp hbmem with h | h
          · exact absurd h.symm hab
          · exact h
        have hat₂ : a ∈ t₂ := by
          rcases List.mem_cons.mp hamem with h | h
          · exact absurd h hab
          · exact h
        have hrab : r a b := (List.pairwise_cons.mp h₁).1 b hbt
        have hrba : r b a := (List.pairwise_cons.mp h₂).1 a hat₂
        exact absurd (hanti a (List.mem_cons_self a t) b (List.mem_cons_of_mem _ hbt) hrab hrba) hab

/-- The load pass ignores entries whose computed key is `undefined`: it
only sees the sublist of entries with a defined key. -/
theorem loadPass_filter {σ : Type}
    (setValue : σ → String → Int → JSValue → Option ValueLoaderOptions → σ × Int)
    (loaders : List ValueLoader) (mergedOptions : Option ValueLoaderOptions) :
    ∀ (l : List DecidedEntry) (result : σ) (index : Int),
      loadPass setValue loaders mergedOptions l result index =
        loadPass setValue loaders mergedOptions (l.filter fun e => e.key.isSome)
          result index := by
  intro l
  induction l with
  | nil => intro result index; rfl
  | cons e es ih =>
    intro result index
    by_cases hk : e.key.isSome
    · rw [List.filter_cons_of_pos (by simpa using hk)]
      simp only [loadPass, hk, if_true]
      cases h : loadStep setValue loaders mergedOptions e result index with
      | error err => rfl
      | ok p => exact ih p.1 (p.2 + 1)
    · rw [List.filter_cons_of_neg (by simpa using hk)]
      simp only [loadPass, hk, if_false]
      exact ih result index

/-- Characterization of the decision pass: it succeeds exactly when every
entry passes the strict-mode check, and then returns the per-entry
decisions in listing order. -/
theorem decidePass_ok_iff (loaders : List ValueLoader) (parent : EntryCtx)
    (mergedOptions : Option ValueLoaderOptions) :
    ∀ (l : List EntryCtx) (ds : List DecidedEntry),
      decidePass loaders parent mergedOptions l = .ok ds ↔
        ds = l.map (decideEntry loaders parent mergedOptions) ∧
          ∀ e ∈ l, (mergedOptions.bind (·.strict)).getD false = true →
            (decideEntry loaders parent mergedOptions e).loader.isSome := by
  intro l
  induction l with
  | nil =>
    intro ds
    simp only [decidePass, List.map_nil, List.not_mem_nil, false_implies, implies_true,
      and_true]
    constructor
    · intro h
      cases h
      rfl
    · intro h
      rw [h]
  | cons e es ih =>
    intro ds
    simp only [decidePass]
    by_cases hcond :
        ((mergedOptions.bind (·.strict)).getD false &&
          (decideEntry loaders parent mergedOptions e).loader.isNone) = true
    · rw [if_pos hcond]
      obtain ⟨hstrict, hnone⟩ := Bool.and_eq_true_iff.mp hcond
      constructor
      · intro h
        exact absurd h (by simp)
      · rintro ⟨_, hall⟩
        have := hall e (List.mem_cons_self e es) hstrict
        rw [Option.isNone_iff_eq_none.mp hnone] at this
        exact absurd this (by simp)
    · rw [if_neg hcond]
      cases h : decidePass loaders parent mergedOptions es with
      | error err =>
        simp only []
        constructor
        · intro habs
          exact absurd habs (by simp)
        · rintro ⟨hds, hall⟩
          have : es.map (decideEntry loaders parent mergedOptions) =
              es.map (decideEntry loaders parent mergedOptions) ∧
              ∀ x ∈ es, (mergedOptions.bind (·.strict)).getD false = true →
                (decideEntry loaders parent mergedOptions x).loader.isSome :=
            ⟨rfl, fun x hx => hall x (List.mem_cons_of_mem _ hx)⟩
          rw [← ih] at this
          rw [h] at this
          exact absurd this (by simp)
      | ok rest =>
        simp only []
        constructor
        · intro hds
          cases hds
          obtain ⟨hrest, hall⟩ := (ih rest).mp h
          refine ⟨by rw [List.map_cons, hrest], ?_⟩
          intro x hx hstrict
          rcases List.mem_cons.mp hx with hx | hx
          · subst hx
            by_cases hsome : (decideEntry loaders parent mergedOptions x).loader.isSome
            · exact hsome
            · exfalso
              apply hcond
              rw [Bool.and_eq_true_iff]
              exact ⟨hstrict, by simpa [Option.isNone_iff_eq_none] using
                Option.not_isSome_iff_eq_none.mp hsome⟩
          · exact hall x hx hstrict
        · rintro ⟨hds, hall⟩
          rw [List.map_cons] at hds
          obtain ⟨hrest, -⟩ := (ih rest).mp h
          rw [hds, hrest]

/-- A decided entry has a decoded key exactly when it has a computed key
(the decoder is only applied to defined keys and returns a string). -/
theorem decideEntry_decodedKey_isSome (loaders : List ValueLoader) (parent : EntryCtx)
    (mergedOptions : Option ValueLoaderOptions) (e : EntryCtx) :
    ((decideEntry loaders parent mergedOptions e).decodedKey).isSome =
      ((decideEntry loaders parent mergedOptions e).key).isSome := by
  simp only [decideEntry]
  cases probeLoaders loaders 0
      { e with relativePath := parent.relativePath ++ "/" ++ e.name } with
  | none => rfl
  | some p =>
    obtain ⟨i, L⟩ := p
    simp only []
    cases L.computeKey { e with relativePath := parent.relativePath ++ "/" ++ e.name } <;>
      simp [decodedOf]

/-- Permutation invariance of the post-listing pipeline (decision pass,
sort pass, load pass, directory-URL embedding), for any container variant,
provided the accepted entries have pairwise distinct decoded keys. -/
theorem directoryAggregate_perm_invariant {σ : Type} (newEmptyResult : σ)
    (setValue : σ → String → Int → JSValue → Option ValueLoaderOptions → σ × Int)
    (embedDir : σ → EntryCtx → Option ValueLoaderOptions → σ)
    (loaders : List ValueLoader) (mergedOptions options : Option ValueLoaderOptions)
    (entry : EntryCtx) (listing₁ listing₂ : List EntryCtx) (result : σ)
    (hperm : listing₁.Perm listing₂)
    (hkeys : ∀ a ∈ listing₁.map (decideEntry loaders entry mergedOptions),
        ∀ b ∈ listing₁.map (decideEntry loaders entry mergedOptions),
          a.decodedKey = b.decodedKey → a.decodedKey ≠ none → a = b)
    (hok : Except.map Prod.fst (directoryAggregate newEmptyResult setValue embedDir loaders
        mergedOptions options entry listing₁) = .ok result) :
    Except.map Prod.fst (directoryAggregate newEmptyResult setValue embedDir loaders
        mergedOptions options entry listing₂) = .ok result := by
  unfold directoryAggregate at hok ⊢
  cases hdp : decidePass loaders entry mergedOptions listing₁ with
  | error err =>
    rw [hdp] at hok
    simp [Except.map] at hok
  | ok decided₁ =>
    rw [hdp] at hok
    dsimp only at hok
    obtain ⟨hd₁, hcond₁⟩ :=
      (decidePass_ok_iff loaders entry mergedOptions listing₁ decided₁).mp hdp
    subst hd₁
    have hdp₂ : decidePass loaders entry mergedOptions listing₂ =
        .ok (listing₂.map (decideEntry loaders entry mergedOptions)) := by
      refine (decidePass_ok_iff loaders entry mergedOptions listing₂ _).mpr ⟨rfl, ?_⟩
      intro e he hstrict
      exact hcond₁ e (hperm.symm.subset he) hstrict
    rw [hdp₂]
    dsimp only
    haveI : IsTotal DecidedEntry entryLe := ⟨fun a b => numberAwareComparison_total _ _⟩
    haveI : IsTrans DecidedEntry entryLe := ⟨fun _ _ _ => numberAwareComparison_trans⟩
    have hs₁ : List.Pairwise entryLe
        (sortEntries (listing₁.map (decideEntry loaders entry mergedOptions))) :=
      List.sorted_insertionSort entryLe _
    have hs₂ : List.Pairwise entryLe
        (sortEntries (listing₂.map (decideEntry loaders entry mergedOptions))) :=
      List.sorted_insertionSort entryLe _
    have hfperm :
        ((sortEntries (listing₁.map (decideEntry loaders entry mergedOptions))).filter
            (fun e => e.key.isSome)).Perm
          ((sortEntries (listing₂.map (decideEntry loaders entry mergedOptions))).filter
            (fun e => e.key.isSome)) :=
      List.Perm.filter _
        ((List.perm_insertionSort entryLe _).trans
          ((hperm.map _).trans (List.perm_insertionSort entryLe _).symm))
    have hfilter_eq :
        (sortEntries (listing₁.map (decideEntry loaders entry mergedOptions))).filter
            (fun e => e.key.isSome) =
          (sortEntries (listing₂.map (decideEntry loaders entry mergedOptions))).filter
            (fun e => e.key.isSome) := by
      refine pairwise_perm_eq hfperm (List.Pairwise.filter _ hs₁) (List.Pairwise.filter _ hs₂) ?_
      intro x hx y hy hxy hyx
      have hx' := List.mem_filter.mp hx
      have hy' := List.mem_filter.mp hy
      have hxm : x ∈ listing₁.map (decideEntry loaders entry mergedOptions) :=
        (List.perm_insertionSort entryLe _).subset hx'.1
      have hym : y ∈ listing₁.map (decideEntry loaders entry mergedOptions) :=
        (List.perm_insertionSort entryLe _).subset hy'.1
      have hxds : x.decodedKey.isSome = true := by
        obtain ⟨ex, -, hfx⟩ := List.mem_map.mp hxm
        rw [← hfx, decideEntry_decodedKey_isSome, hfx]
        exact hx'.2
      have hyds : y.decodedKey.isSome = true := by
        obtain ⟨ey, -, hfy⟩ := List.mem_map.mp hym
        rw [← hfy, decideEntry_decodedKey_isSome, hfy]
        exact hy'.2
      obtain ⟨dx, hdx⟩ := Option.isSome_iff_exists.mp hxds
      obtain ⟨dy, hdy⟩ := Option.isSome_iff_exists.mp hyds
      have hdeq : dx = dy := by
        apply numberAwareComparison_antisymm
        · have := hxy
          unfold entryLe at this
          rwa [hdx, hdy] at this
        · have := hyx
          unfold entryLe at this
          rwa [hdx, hdy] at this
      refine hkeys x hxm y hym ?_ ?_
      · rw [hdx, hdy, hdeq]
      · rw [hdx]
        simp
    cases hlp : loadPass setValue loaders mergedOptions
        (sortEntries (listing₁.map (decideEntry loaders entry mergedOptions)))
        newEmptyResult 0 with
    | error err =>
      rw [hlp] at hok
      simp [Except.map] at hok
    | ok p =>
      obtain ⟨res₀, idx₀⟩ := p
      rw [hlp] at hok
      have hlp₂ : loadPass setValue loaders mergedOptions
          (sortEntries (listing₂.map (decideEntry loaders entry mergedOptions)))
          newEmptyResult 0 = .ok (res₀, idx₀) := by
        rw [loadPass_filter, ← hfilter_eq, ← loadPass_filter]
        exact hlp
      rw [hlp₂]
      simpa using hok

/-! ## The claims -/

/-- **C2.** The ordering utility treats a string as numeric exactly when it
is the canonical decimal rendering of an integer (so leading zeros,
whitespace and partial numeric prefixes are rejected); two numeric keys
compare as their exact numeric difference (hence with its sign); a numeric
key always compares before a non-numeric key; and `comparison("9","10")`
is negative. -/
theorem numberAwareComparison_numeric_spec (a b : String) :
    ((parseInt a).isSome = true ↔ ∃ n : Int, jsNumberToString n = a)
  ∧ (∀ x y : Int, parseInt a = some x → parseInt b = some y →
      numberAwareComparison (some a) (some b) = x - y)
  ∧ (∀ x : Int, parseInt a = some x → parseInt b = none →
      numberAwareComparison (some a) (some b) = -1)
  ∧ (∀ x : Int, parseInt a = none → parseInt b = some x →
      numberAwareComparison (some a) (some b) = 1)
  ∧ (parseInt "09" = none ∧ parseInt " 9" = none ∧ parseInt "9 " = none ∧
      parseInt "9.5" = none ∧ parseInt "+9" = none ∧
      parseInt "10" = some 10 ∧ parseInt "-3" = some (-3))
  ∧ numberAwareComparison (some "9") (some "10") = -1 := by
  refine ⟨parseInt_isSome_iff a, ?_, ?_, ?_, ?_, ?_⟩
  · intro x y hx hy
    simp [numberAwareComparison, hx, hy]
  · intro x hx hb
    simp [numberAwareComparison, hx, hb]
  · intro x ha hx
    simp [numberAwareComparison, ha, hx]
  · exact ⟨by decide, by decide, by decide, by decide, by decide, by decide, by decide⟩
  · decide

/-- Witness for C2 at `a = "9"`, `b = "10"`: both parse, and the
comparison is their exact difference `9 - 10 = -1 < 0`. -/
theorem numberAwareComparison_numeric_spec_witness :
    numberAwareComparison (some "9") (some "10") = 9 - 10 ∧
      ((parseInt "9").isSome = true ↔ ∃ n : Int, jsNumberToString n = "9") :=
  ⟨(numberAwareComparison_numeric_spec "9" "10").2.1 9 10 (by decide) (by decide),
    (numberAwareComparison_numeric_spec "9" "10").1⟩

/-- **C3.** Evaluation of `numberAwareComparison` at the undefined key:
the code returns `-1` for `(undefined, "abc")` and `1` for
`("abc", undefined)` — the opposite signs of what the claim (and the
function's own doc comment, and the title of its test) state — and `0`
for two undefined keys. -/
theorem numberAwareComparison_undefined_eval :
    numberAwareComparison none (some "abc") = -1 ∧
      numberAwareComparison (some "abc") none = 1 ∧
      numberAwareComparison none none = 0 :=
  ⟨rfl, rfl, rfl⟩

/-- **C4.** Evaluation of the fluent refinement chain at the failing
input: the loader `base.whenExtensionIs(".txt")` rejects `foo.json`, yet
refining it further with an always-true `when` predicate yields a loader
that accepts `foo.json` — because `when` wraps `this.#innerLoader` and
discards the extension override, contradicting the documented
always-narrows contract. -/
theorem fluentLoader_when_widens_eval :
    ((FluentLoaderImpl.ofLoader sampleAnyLoader).whenExtensionIs ".txt").canLoadValue
        sampleJson = false ∧
      (((FluentLoaderImpl.ofLoader sampleAnyLoader).whenExtensionIs ".txt").when
          (fun _ => true)).canLoadValue sampleJson = true :=
  ⟨by decide, by decide⟩

/-- **C6.** `setOrMergeValue` under an occupied key: if both the existing
and the new value are plain records, the stored result is
`objectMergeFunction existing new` (overwrite-with-new when the option is
absent); if both are arrays, `arrayMergeFunction existing new` (same
default); in every other case the new value plainly overwrites. -/
theorem setOrMergeValue_spec (target : RecordFields) (key : String)
    (value existing : JSValue) (options : Option ValueLoaderOptions)
    (hexisting : recGet target key = some existing) :
    (∀ ef nf, existing = .record ef → value = .record nf →
        setOrMergeValue target key value options =
          recSet target key
            (.record (((options.bind (·.objectMergeFunction)).getD overwriteMerge) ef nf)))
  ∧ (∀ ee ne, existing = .arr ee → value = .arr ne →
        setOrMergeValue target key value options =
          recSet target key
            (.arr (((options.bind (·.arrayMergeFunction)).getD overwriteMerge) ee ne)))
  ∧ (¬(isRecord existing = true ∧ isRecord value = true) →
      ¬(isArray existing = true ∧ isArray value = true) →
        setOrMergeValue target key value options = recSet target key value) := by
  refine ⟨?_, ?_, ?_⟩
  · rintro ef nf rfl rfl
    simp [setOrMergeValue, typeofIsObject, hexisting]
  · rintro ee ne rfl rfl
    simp [setOrMergeValue, typeofIsObject, hexisting]
  · intro hrec harr
    unfold setOrMergeValue
    by_cases hobj : typeofIsObject value = true
    · rw [if_pos hobj, hexisting]
      cases value <;> cases existing <;> simp_all [isRecord, isArray, typeofIsObject]
    · rw [if_neg hobj]

/-- Witness for C6: merging a record into an occupied record slot with no
merge function configured stores the overwrite-merge of the two field
lists. -/
theorem setOrMergeValue_spec_witness :
    setOrMergeValue [("a", JSValue.record [("x", JSValue.num 1)])] "a"
        (JSValue.record [("y", JSValue.num 2)]) none =
      recSet [("a", JSValue.record [("x", JSValue.num 1)])] "a"
        (JSValue.record
          ((((none : Option ValueLoaderOptions).bind (·.objectMergeFunction)).getD
              overwriteMerge) [("x", JSValue.num 1)] [("y", JSValue.num 2)])) :=
  (setOrMergeValue_spec [("a", JSValue.record [("x", JSValue.num 1)])] "a"
    (JSValue.record [("y", JSValue.num 2)]) (JSValue.record [("x", JSValue.num 1)])
    none rfl).1 _ _ rfl rfl

/-- **C8 (amended).** `loadValue` merges the engine's default options with
the call-site options attribute by attribute (call-site wins; either side
is used verbatim when the other is absent), and the cancellation check,
decision pass and load pass honor the merged options — but the final
directory-URL embedding step is handed the raw call-site options, so
`embedDirectoryUrlAs` takes effect exactly when present at the call site:
set only in the engine's defaults it is ignored, set at the call site the
directory's own URL is embedded. -/
theorem mergeOptions_embedDirectoryUrl_spec
    (d o : ValueLoaderOptions) (loaders : List ValueLoader) (fileSystemReader : Nat)
    (entry : EntryCtx) (p : String) (hdir : entry.type = .directory) :
    (mergeOptions none (some o) = some o)
  ∧ (mergeOptions (some d) none = some d)
  ∧ ((mergeOptions (some d) (some o)).bind (·.embedDirectoryUrlAs) =
      (o.embedDirectoryUrlAs <|> d.embedDirectoryUrlAs))
  ∧ ((mergeOptions (some d) (some o)).bind (·.strict) = (o.strict <|> d.strict))
  ∧ ((mergeOptions (some d) (some o)).bind (·.signal) = (o.signal <|> d.signal))
  ∧ (directoryObjectLoadValue loaders fileSystemReader
        (some { embedDirectoryUrlAs := some p }) (fun _ _ _ => .ok []) entry none =
      .ok ([], []))
  ∧ (directoryObjectLoadValue loaders fileSystemReader none (fun _ _ _ => .ok []) entry
        (some { embedDirectoryUrlAs := some p }) =
      .ok ([(p, .urlV entry.url)], [])) := by
  refine ⟨rfl, rfl, rfl, rfl, rfl, ?_, ?_⟩
  · unfold directoryObjectLoadValue directoryLoadValueAux
    rw [if_neg (by simp [hdir])]
    dsimp only
    rfl
  · unfold directoryObjectLoadValue directoryLoadValueAux
    rw [if_neg (by simp [hdir])]
    dsimp only
    rfl

/-- Witness for C8 on a concrete directory entry: the default-only side
yields an empty record, the call-site side embeds the URL. -/
theorem mergeOptions_embedDirectoryUrl_spec_witness :
    (directoryObjectLoadValue [] 0 (some { embedDirectoryUrlAs := some "__dir__" })
        (fun _ _ _ => .ok []) sampleDir none = .ok ([], []))
  ∧ (directoryObjectLoadValue [] 0 none (fun _ _ _ => .ok []) sampleDir
        (some { embedDirectoryUrlAs := some "__dir__" }) =
      .ok ([("__dir__", .urlV sampleDir.url)], [])) :=
  ⟨(mergeOptions_embedDirectoryUrl_spec {} {} [] 0 sampleDir "__dir__" rfl).2.2.2.2.2.1,
    (mergeOptions_embedDirectoryUrl_spec {} {} [] 0 sampleDir "__dir__" rfl).2.2.2.2.2.2⟩

/-- Counterexample for C8 as stated: with `embedDirectoryUrlAs` set only
in the engine's default options, the object-variant result of loading an
empty directory is the empty record — the directory's URL is *not*
embedded, because `embedDirectoryUrl` receives the raw call-site options
instead of the merged options. -/
theorem embedDirectoryUrlAs_default_only_counterexample :
    directoryObjectLoadValue [] 0 (some { embedDirectoryUrlAs := some "__dir__" })
        (fun _ _ _ => .ok []) sampleDir none = .ok ([], []) ∧
      ([] : RecordFields) ≠ [("__dir__", JSValue.urlV "file:///d")] :=
  ⟨rfl, by simp⟩

/-- **C9 (amended).** With an already-canceled token in the effective
options, the directory-aggregation variants (object and array) fail with
the abort error before consulting the backend at all — for every backend.
The legacy factory file loaders (`newTextFileValueLoader`,
`newStringParserFileValueLoader`) likewise check the token before
reading.  The fluent builder's text-file variant, however, simply
delegates to the file reader, cancellation token included: it fails
before the read only if that backend itself honors the token. -/
theorem cancellation_fail_fast_spec (loaders : List ValueLoader) (fileSystemReader : Nat)
    (defaultOptions options : Option ValueLoaderOptions) (entry : EntryCtx)
    (readDir : Nat → String → Option ValueLoaderOptions → Except JsError (List EntryCtx))
    (readText : String → Option ValueLoaderOptions → Except JsError String)
    (parser : String → JSValue) (path : String)
    (hdir : entry.type = .directory)
    (haborted : signalAborted (mergeOptions defaultOptions options) = true) :
    (directoryObjectLoadValue loaders fileSystemReader defaultOptions readDir entry options =
        .error .abortError)
  ∧ (directoryArrayLoadValue loaders fileSystemReader defaultOptions readDir entry options =
        .error .abortError)
  ∧ (signalAborted options = true →
      legacyTextFileLoadValue readText path options = .error .abortError)
  ∧ (signalAborted options = true →
      legacyStringParserLoadValue readText parser path options = .error .abortError)
  ∧ (fluentTextFileLoadValue readText entry options = (readText entry.url options).map .str) := by
  refine ⟨?_, ?_, ?_, ?_, rfl⟩
  · unfold directoryObjectLoadValue directoryLoadValueAux
    rw [if_neg (by simp [hdir])]
    dsimp only
    rw [if_pos haborted]
  · unfold directoryArrayLoadValue directoryLoadValueAux
    rw [if_neg (by simp [hdir])]
    dsimp only
    rw [if_pos haborted]
  · intro h
    unfold legacyTextFileLoadValue
    rw [if_pos h]
  · intro h
    unfold legacyStringParserLoadValue
    rw [if_pos h]

/-- Witness for C9 with an aborted token, any-result backends and a
concrete directory. -/
theorem cancellation_fail_fast_spec_witness :
    (directoryObjectLoadValue [] 0 none (fun _ _ _ => .ok []) sampleDir
        (some { signal := some true }) = .error .abortError)
  ∧ (legacyTextFileLoadValue (fun _ _ => .ok "hello") "p" (some { signal := some true }) =
        .error .abortError) :=
  ⟨(cancellation_fail_fast_spec [] 0 none (some { signal := some true }) sampleDir
      (fun _ _ _ => .ok []) (fun _ _ => .ok "hello") .str "p" rfl rfl).1,
    (cancellation_fail_fast_spec [] 0 none (some { signal := some true }) sampleDir
      (fun _ _ _ => .ok []) (fun _ _ => .ok "hello") .str "p" rfl rfl).2.2.1 rfl⟩

/-- Counterexample for C9 as stated: the fluent text-file loader invoked
with an already-canceled token against a backend that ignores the token
does not fail — it performs the read and returns the file's contents. -/
theorem fluentTextFile_cancellation_counterexample :
    fluentTextFileLoadValue (fun _ _ => .ok "hello") sampleA (some { signal := some true }) =
        .ok (.str "hello")
  ∧ (Except.ok (JSValue.str "hello") : Except JsError JSValue) ≠ .error .abortError
  ∧ signalAborted (some { signal := some true }) = true :=
  ⟨rfl, by simp, rfl⟩

/-- **C10 (amended).** A successful `loadValue` leaves the listing array
it was handed in a new state: every entry annotated by the decision pass
(`relativePath` always; `loader`, `key`, `decodedKey` for entries some
loader accepted) and the array reordered by the sort pass — this is the
state a caller sharing a cached listing observes afterwards. -/
theorem loadValue_mutates_listing_spec (loaders : List ValueLoader) (fileSystemReader : Nat)
    (defaultOptions options : Option ValueLoaderOptions) (entry : EntryCtx)
    (listing : List EntryCtx) (result : RecordFields) (entriesAfter : List DecidedEntry)
    (hok : directoryObjectLoadValue loaders fileSystemReader defaultOptions
        (fun _ _ _ => .ok listing) entry options = .ok (result, entriesAfter)) :
    entriesAfter =
        sortEntries (listing.map
          (decideEntry loaders entry (mergeOptions defaultOptions options)))
  ∧ ∀ e ∈ listing,
      (decideEntry loaders entry (mergeOptions defaultOptions options) e).relativePath =
        entry.relativePath ++ "/" ++ e.name := by
  constructor
  · unfold directoryObjectLoadValue directoryLoadValueAux directoryAggregate at hok
    by_cases htype : entry.type ≠ .directory
    · rw [if_pos htype] at hok
      exact absurd hok (by simp)
    · rw [if_neg htype] at hok
      dsimp only at hok
      by_cases hsig : signalAborted (mergeOptions defaultOptions options) = true
      · rw [if_pos hsig] at hok
        exact absurd hok (by simp)
      · rw [if_neg hsig] at hok
        cases hdp : decidePass loaders entry (mergeOptions defaultOptions options) listing with
        | error err =>
          rw [hdp] at hok
          exact absurd hok (by simp)
        | ok decided =>
          rw [hdp] at hok
          dsimp only at hok
          obtain ⟨hd, -⟩ :=
            (decidePass_ok_iff loaders entry (mergeOptions defaultOptions options)
              listing decided).mp hdp
          subst hd
          cases hlp : loadPass objectSetValue loaders (mergeOptions defaultOptions options)
              (sortEntries (listing.map
                (decideEntry loaders entry (mergeOptions defaultOptions options)))) [] 0 with
          | error err =>
            rw [hlp] at hok
            exact absurd hok (by simp)
          | ok q =>
            obtain ⟨res₀, idx₀⟩ := q
            rw [hlp] at hok
            dsimp only at hok
            cases hok
            rfl
  · intro e he
    simp only [decideEntry]
    cases probeLoaders loaders 0
        { e with relativePath := entry.relativePath ++ "/" ++ e.name } with
    | none => rfl
    | some q =>
      obtain ⟨i, L⟩ := q
      rfl

/-- Witness for C10 on a two-entry listing: the returned listing state is
the annotated, sorted array. -/
theorem loadValue_mutates_listing_spec_witness :
    ([⟨⟨"a", .file, "file:///d/a", "/a"⟩, some 0, some "a", some "a"⟩,
       ⟨⟨"b", .file, "file:///d/b", "/b"⟩, some 0, some "b", some "b"⟩] =
        sortEntries ([sampleB, sampleA].map (decideEntry [sampleFileLoader] sampleDir
          (mergeOptions none none))))
  ∧ ∀ e ∈ [sampleB, sampleA],
      (decideEntry [sampleFileLoader] sampleDir (mergeOptions none none) e).relativePath =
        sampleDir.relativePath ++ "/" ++ e.name :=
  loadValue_mutates_listing_spec [sampleFileLoader] 0 none none sampleDir [sampleB, sampleA]
    [("a", .str "/a"), ("b", .str "/b")]
    [⟨⟨"a", .file, "file:///d/a", "/a"⟩, some 0, some "a", some "a"⟩,
      ⟨⟨"b", .file, "file:///d/b", "/b"⟩, some 0, some "b", some "b"⟩] (by rfl)

/-- Counterexample for C10 as stated: an entry of type `other` that no
loader accepts comes back from the load with its `relativePath` set but
its `loader`, `key` and `decodedKey` fields never written — the claim's
"writes … onto each entry object" does not hold for unaccepted entries. -/
theorem decision_fields_unwritten_counterexample :
    directoryObjectLoadValue [sampleFileLoader] 0 none (fun _ _ _ => .ok [sampleOther])
        sampleDir none =
      .ok ([], [⟨⟨"x", .other, "file:///d/x", "/x"⟩, none, none, none⟩]) ∧
    (⟨⟨"x", .other, "file:///d/x", "/x"⟩, none, none, none⟩ : DecidedEntry).loader = none :=
  ⟨rfl, rfl⟩

/-- **C1 (amended).** For a fixed set of directory entries (names, types
and loaders fixed) and any permutation of the order in which the backend
lists them, the object-variant `loadValue` returns a deeply equal
structured value, provided the decoded keys of the accepted entries are
pairwise distinct.  (With two equal decoded keys the claim fails: the
sort is stable, so the later-listed entry wins the overwrite and the
output depends on the listing order — see the counterexample.) -/
theorem loadValue_order_determinism (loaders : List ValueLoader) (fileSystemReader : Nat)
    (defaultOptions options : Option ValueLoaderOptions) (entry : EntryCtx)
    (listing₁ listing₂ : List EntryCtx) (result : RecordFields)
    (hperm : listing₁.Perm listing₂)
    (hkeys : ∀ a ∈ listing₁.map (decideEntry loaders entry (mergeOptions defaultOptions options)),
        ∀ b ∈ listing₁.map (decideEntry loaders entry (mergeOptions defaultOptions options)),
          a.decodedKey = b.decodedKey → a.decodedKey ≠ none → a = b)
    (hok : Except.map Prod.fst (directoryObjectLoadValue loaders fileSystemReader
        defaultOptions (fun _ _ _ => .ok listing₁) entry options) = .ok result) :
    Except.map Prod.fst (directoryObjectLoadValue loaders fileSystemReader
        defaultOptions (fun _ _ _ => .ok listing₂) entry options) = .ok result := by
  unfold directoryObjectLoadValue directoryLoadValueAux at hok ⊢
  by_cases htype : entry.type ≠ .directory
  · rw [if_pos htype] at hok
    simp [Except.map] at hok
  · rw [if_neg htype] at hok ⊢
    dsimp only at hok ⊢
    by_cases hsig : signalAborted (mergeOptions defaultOptions options) = true
    · rw [if_pos hsig] at hok
      simp [Except.map] at hok
    · rw [if_neg hsig] at hok ⊢
      exact directoryAggregate_perm_invariant [] objectSetValue embedDirectoryUrlObject
        loaders (mergeOptions defaultOptions options) options entry listing₁ listing₂
        result hperm hkeys hok

/-- Witness for C1: two files `a` and `b` with distinct keys, listed in
the opposite order, still produce the sorted record. -/
theorem loadValue_order_determinism_witness :
    Except.map Prod.fst (directoryObjectLoadValue [sampleFileLoader] 0 none
        (fun _ _ _ => .ok [sampleA, sampleB]) sampleDir none) =
      .ok [("a", JSValue.str "/a"), ("b", JSValue.str "/b")] :=
  loadValue_order_determinism [sampleFileLoader] 0 none none sampleDir
    [sampleB, sampleA] [sampleA, sampleB]
    [("a", JSValue.str "/a"), ("b", JSValue.str "/b")]
    (by decide) (by decide) (by rfl)

/-- Counterexample for C1 as stated (the "including when two entries'
decoded keys are equal" part): with two entries whose decoded keys are
both `"a"`, the two listing orders produce different structured values —
the stable sort keeps the listing order among ties and the later entry
wins the default overwrite. -/
theorem loadValue_listing_order_counterexample :
    Except.map Prod.fst (directoryObjectLoadValue [sampleConstKeyLoader] 0 none
        (fun _ _ _ => .ok [sampleA, sampleB]) sampleDir none) = .ok [("a", JSValue.str "b")]
  ∧ Except.map Prod.fst (directoryObjectLoadValue [sampleConstKeyLoader] 0 none
        (fun _ _ _ => .ok [sampleB, sampleA]) sampleDir none) = .ok [("a", JSValue.str "a")]
  ∧ [sampleA, sampleB].Perm [sampleB, sampleA]
  ∧ ([("a", JSValue.str "b")] : RecordFields) ≠ [("a", JSValue.str "a")] :=
  ⟨by rfl, by rfl, by decide, by simp⟩

/-- **C5 (amended).** Array-variant `setValue`: a decoded key that parses
wholly as a canonical integer — negative values included — replaces the
running cursor with that integer and the value is stored there: at that
array index when non-negative (extending the array with holes as needed),
as a non-element property when negative, leaving the elements untouched.
A key that does not parse keeps the cursor, appending one position past
the previous entry's index.  Entries named 0 / 42 / 99 produce an array
of length 100 with values exactly at indices 0, 42 and 99. -/
theorem arrayLoader_setValue_spec (result : JSArray) (decodedKey : String) (index : Int)
    (value : JSValue) (options : Option ValueLoaderOptions) :
    (∀ n : Int, parseInt decodedKey = some n →
        arraySetValue result decodedKey index value options = (arrayWrite result n value, n))
  ∧ (parseInt decodedKey = none →
      arraySetValue result decodedKey index value options =
        (arrayWrite result index value, index))
  ∧ (∀ n : Int, n < 0 →
      (arrayWrite result n value).elems = result.elems ∧
        (arrayWrite result n value).extraProps =
          recSet result.extraProps (jsNumberToString n) value)
  ∧ (∀ n : Nat, result.elems.length ≤ n →
      (arrayWrite result (n : Int) value).elems =
        result.elems ++ List.replicate (n - result.elems.length) none ++ [some value])
  ∧ (∀ n : Nat, n < result.elems.length →
      (arrayWrite result (n : Int) value).elems = result.elems.set n (some value))
  ∧ (Except.map (fun p => p.1.elems.length)
        (directoryArrayLoadValue [sampleFileLoader] 0 none
          (fun _ _ _ => .ok [sampleN42, sampleN0, sampleN99]) sampleDir none) = .ok 100
    ∧ Except.map (fun p => p.1.elems.get? 0)
        (directoryArrayLoadValue [sampleFileLoader] 0 none
          (fun _ _ _ => .ok [sampleN42, sampleN0, sampleN99]) sampleDir none) =
        .ok (some (some (.str "/0")))
    ∧ Except.map (fun p => p.1.elems.get? 42)
        (directoryArrayLoadValue [sampleFileLoader] 0 none
          (fun _ _ _ => .ok [sampleN42, sampleN0, sampleN99]) sampleDir none) =
        .ok (some (some (.str "/42")))
    ∧ Except.map (fun p => p.1.elems.get? 99)
        (directoryArrayLoadValue [sampleFileLoader] 0 none
          (fun _ _ _ => .ok [sampleN42, sampleN0, sampleN99]) sampleDir none) =
        .ok (some (some (.str "/99")))
    ∧ Except.map (fun p => (p.1.elems.filter (fun v => v.isSome)).length)
        (directoryArrayLoadValue [sampleFileLoader] 0 none
          (fun _ _ _ => .ok [sampleN42, sampleN0, sampleN99]) sampleDir none) = .ok 3) := by
  refine ⟨?_, ?_, ?_, ?_, ?_, by rfl, by rfl, by rfl, by rfl, by rfl⟩
  · intro n hn
    simp [arraySetValue, hn]
  · intro hn
    simp [arraySetValue, hn]
  · intro n hn
    unfold arrayWrite
    rw [if_pos hn]
    exact ⟨rfl, rfl⟩
  · intro n hle
    unfold arrayWrite
    rw [if_neg (by omega)]
    dsimp only
    have ht : ((n : Int)).toNat = n := by omega
    rw [ht, if_neg (by omega)]
  · intro n hlt
    unfold arrayWrite
    rw [if_neg (by omega)]
    dsimp only
    have ht : ((n : Int)).toNat = n := by omega
    rw [ht, if_pos hlt]

/-- Witness for C5 at the key `"42"`: the parsed index replaces the
cursor. -/
theorem arrayLoader_setValue_spec_witness :
    arraySetValue {} "42" 0 (JSValue.num 7) none =
      (arrayWrite {} 42 (JSValue.num 7), 42) :=
  (arrayLoader_setValue_spec {} "42" 0 (JSValue.num 7) none).1 42 (by decide)

/-- Counterexample for C5 as stated: an entry whose decoded key is `"-1"`
parses (the code accepts negative integers, not only non-negative ones)
and is *not* appended one past the highest index used so far — the array
stays empty and the value lands in a non-element property named `"-1"`. -/
theorem arrayLoader_negative_key_counterexample :
    Except.map (fun p => p.1.elems)
        (directoryArrayLoadValue [sampleFileLoader] 0 none
          (fun _ _ _ => .ok [sampleNeg]) sampleDir none) = .ok []
  ∧ Except.map (fun p => p.1.extraProps)
        (directoryArrayLoadValue [sampleFileLoader] 0 none
          (fun _ _ _ => .ok [sampleNeg]) sampleDir none) =
      .ok [("-1", JSValue.str "/-1")]
  ∧ ([] : ArrayElems) ≠ [some (JSValue.str "/-1")] :=
  ⟨by rfl, by rfl, by simp⟩

/-- **C7.** When the listing yields a companion (inner) file system
reader, the engine makes it the backend for the subtree: the options
handed to every nested load carry it in place of both the engine's
configured reader and the call-site override, a nested file loader
resolves its reads through it, and a probe loader run under the
companion-aware engine observes exactly the companion reader id. -/
theorem companion_reader_spec (fileSystemReader R : Nat)
    (defaultOptions options : Option ValueLoaderOptions)
    (contents : DirectoryContents)
    (hinner : contents.innerFileSystemReader = some R) :
    ((nestedOptionsFor fileSystemReader defaultOptions options contents).bind
        (·.fileSystemReader) = some R)
  ∧ (∀ builderReader : Nat,
      nestedReaderUsed builderReader
        (nestedOptionsFor fileSystemReader defaultOptions options contents) = R)
  ∧ (∀ callsiteReader : Nat,
      directoryObjectLoadValueWithCompanion [readerProbeLoader] fileSystemReader none
        (fun _ _ _ => .ok { entries := [sampleA], innerFileSystemReader := some R })
        sampleDir (some { fileSystemReader := some callsiteReader }) =
      .ok ([("a", .num (Int.ofNat R))],
        [⟨⟨"a", .file, "file:///d/a", "/a"⟩, some 0, some "a", some "a"⟩])) := by
  refine ⟨?_, ?_, ?_⟩
  · simp [nestedOptionsFor, hinner]
  · intro builderReader
    simp [nestedReaderUsed, nestedOptionsFor, hinner]
  · intro callsiteReader
    rfl

/-- Witness for C7 at concrete reader ids: configured reader 0, call-site
override 5, companion reader 7 — the companion wins everywhere. -/
theorem companion_reader_spec_witness :
    ((nestedOptionsFor 0 none none { entries := [], innerFileSystemReader := some 7 }).bind
        (·.fileSystemReader) = some 7)
  ∧ (nestedReaderUsed 3
        (nestedOptionsFor 0 none none { entries := [], innerFileSystemReader := some 7 }) = 7)
  ∧ (directoryObjectLoadValueWithCompanion [readerProbeLoader] 0 none
        (fun _ _ _ => .ok { entries := [sampleA], innerFileSystemReader := some 7 })
        sampleDir (some { fileSystemReader := some 5 }) =
      .ok ([("a", .num (Int.ofNat 7))],
        [⟨⟨"a", .file, "file:///d/a", "/a"⟩, some 0, some "a", some "a"⟩])) :=
  ⟨(companion_reader_spec 0 7 none none { entries := [], innerFileSystemReader := some 7 }
      rfl).1,
    (companion_reader_spec 0 7 none none { entries := [], innerFileSystemReader := some 7 }
      rfl).2.1 3,
    (companion_reader_spec 0 7 none none
      { entries := [sampleA], innerFileSystemReader := some 7 } rfl).2.2 5⟩

end DirectoryToObject
